import Mathlib

/-!
Verification of the `DataModel` class of `sificc_lib` (file
`src/sificc_lib/DataModel.py`), shallowly embedded in Lean 4.
Scalars are modelled as exact rationals (`ℚ`); numpy row vectors are
`List ℚ`, 2-D arrays are `List (List ℚ)`, and elementwise numpy
arithmetic is modelled with `List.zipWith` / `List.map`.  Fallible
operations (those that `raise` in Python) return `Except String`.
-/

namespace DataModel

/-- Width of one cluster feature block (`self.cluster_size = 9`). -/
def cluster_size : Nat := 9

/-- Column count of the `targets` array (its last-axis width, 11). -/
def target_width : Nat := 11

/-- Column count of the `reco` array (its last-axis width, 9). -/
def reco_width : Nat := 9

/-- The energy std shrink factor (`self.__eng_std_factor = .2`). -/
def eng_std_factor : ℚ := 0.2

/-- The target mean vector `__mean_targets`: `[0]` for the compton flag,
then e/p energies, e position (3), p position (3), and `[0,0]` for the
two cluster-index columns. -/
def mean_targets : List ℚ :=
  [0,
   1.1569136787161725,
   1.9273711829259783,
   209.63565735, -0.23477532, -5.38639807,
   385.999635, 0.130259990, 2.13816374,
   0, 0]

/-- The target std vector `__std_targets`: `[1]` for the compton flag,
energy stds scaled by `eng_std_factor`, e position stds (3), p position
stds (3), and `[1,1]` for the two cluster-index columns. -/
def std_targets : List ℚ :=
  [1,
   1.78606941263188 * eng_std_factor,
   1.6663689936376904 * eng_std_factor,
   41.08060207, 20.77702422, 27.19018651,
   43.94193657, 27.44766386, 28.21021386,
   1, 1]

/-- Elementwise z-score normalization `(data - mean) / std` on the last
axis, as numpy computes it for a row vector. -/
def zscore (data mean std : List ℚ) : List ℚ :=
  List.zipWith (· / ·) (List.zipWith (· - ·) data mean) std

/-- Elementwise denormalization `(data * std) + mean` on the last axis. -/
def unzscore (data mean std : List ℚ) : List ℚ :=
  List.zipWith (· + ·) (List.zipWith (· * ·) data std) mean

/-- The message of the exception raised on a shape mismatch:
`'data has invalid shape of \x7b\x7d'.format(data.shape)` where the
shape of a row vector of length `n` prints as `(n,)`. -/
def invalid_shape_msg (n : Nat) : String :=
  "data has invalid shape of (" ++ toString n ++ ",)"

/-- Model of `normalize_targets`: z-scores with the full 11-element target
statistics when the last-axis width is 11, with the statistics minus the
last two (cluster-index) columns when it is 9, and raises otherwise. -/
def normalize_targets (data : List ℚ) : Except String (List ℚ) :=
  if data.length = target_width then
    .ok (zscore data mean_targets std_targets)
  else if data.length = reco_width then
    .ok (zscore data (mean_targets.take 9) (std_targets.take 9))
  else
    .error (invalid_shape_msg data.length)

/-- Model of `_denormalize_targets`: the inverse transformation with the same
width dispatch as `normalize_targets`. -/
def _denormalize_targets (data : List ℚ) : Except String (List ℚ) :=
  if data.length = target_width then
    .ok (unzscore data mean_targets std_targets)
  else if data.length = reco_width then
    .ok (unzscore data (mean_targets.take 9) (std_targets.take 9))
  else
    .error (invalid_shape_msg data.length)

/-- Property `validation_start_pos`: `int(self.length * (1-validation_percent-test_percent))`.
Python `int` truncates toward zero; for the nonnegative operands below
this is the floor, modelled as `Int.floor` followed by `Int.toNat`. -/
def validation_start_pos (length : Nat) (vp tp : ℚ) : Nat :=
  (⌊(length : ℚ) * (1 - vp - tp)⌋).toNat

/-- Property `test_start_pos`: `int(self.length * (1-test_percent))`. -/
def test_start_pos (length : Nat) (tp : ℚ) : Nat :=
  (⌊(length : ℚ) * (1 - tp)⌋).toNat

/-- Property `steps_per_epoch`: `int(np.ceil(self.validation_start_pos/self.batch_size))`,
the ceiling of the exact quotient. -/
def steps_per_epoch (v b : Nat) : Nat :=
  (⌈(v : ℚ) / (b : ℚ)⌉).toNat

/-- Start of the batch window at a given step: `start = step * batch_size`. -/
def batch_start (b step : Nat) : Nat := step * b

/-- End of the batch window at a given step:
`end = (step+1) * batch_size`, clamped so it does not enter the
validation range (`end if end <= validation_start_pos else validation_start_pos`). -/
def batch_end (v b step : Nat) : Nat := min ((step + 1) * b) v

/-- The windows one epoch of `generate_batch` slices, in order. -/
def epoch_windows (v b : Nat) : List (Nat × Nat) :=
  (List.range (steps_per_epoch v b)).map (fun step => (batch_start b step, batch_end v b step))

/-- The per-sample weight of `generate_batch`:
`type * weight_compton + (1-type) * weight_non_compton`. -/
def sample_weight (wc wnc t : ℚ) : ℚ := t * wc + (1 - t) * wnc

/-- The weight vector of a batch, one weight per row of the `type`
entry of the targets dictionary (the column-0 projection of the
batch's target rows). -/
def batch_weights (wc wnc : ℚ) (type_rows : List (List ℚ)) : List ℚ :=
  type_rows.map (fun r => sample_weight wc wnc (r.getD 0 0))

/-- PermOn K σ: σ (read as `i ↦ sequence[i]`) is a permutation of the
slots `{0, ..., K-1}`, the shape of `np.random.permutation(K)`. -/
def PermOn (K : Nat) (σ : Nat → Nat) : Prop :=
  (∀ i, i < K → σ i < K) ∧ (∀ y, y < K → ∃ p, p < K ∧ σ p = y) ∧
  (∀ i j, i < K → j < K → σ i = σ j → i = j)

/-- The expanded per-scalar index map of `__get_augmentation_sequence`:
`np.repeat(sequence * cluster_size, cluster_size) +
np.tile(np.arange(cluster_size), num_clusters)`, i.e. the flat index
`t = i*9 + j` is mapped to `sequence[i]*9 + j`. -/
def expanded_sequence (K : Nat) (σ : Nat → Nat) : List Nat :=
  (List.range (K * cluster_size)).map
    (fun t => σ (t / cluster_size) * cluster_size + t % cluster_size)

/-- Fancy indexing `v[indices]` of a row vector by an index list (the
default is never hit for in-range index maps). -/
def reindex (v : List ℚ) (idx : List Nat) : List ℚ :=
  idx.map (fun i => v.getD i 0)

/-- The slot search of the augmenter, `np.where(np.equal(old, sequence))`:
the first position `p` with `sequence[p] == old` (with a permutation
there is exactly one). -/
def remap_cluster_index (K : Nat) (σ : Nat → Nat) (old : ℚ) : Option Nat :=
  (List.range K).find? (fun p => decide ((σ p : ℚ) = old))

/-- A concrete draw of the augmentation sequence over 3 clusters:
`sequence = [2, 0, 1]`, read as the function `i ↦ sequence[i]`. -/
def seqw : Nat → Nat := fun i => [2, 0, 1].getD i 0

/-- A concrete 27-wide feature row, `[0, 1, ..., 26]`. -/
def vrow27 : List ℚ := List.map (fun n : Nat => (n : ℚ)) (List.range 27)

/-- The row-index array built by `shuffle`:
`sequence = np.arange(self.length)` followed by
`sequence[:limit] = np.random.permutation(limit)`, with the drawn
permutation read as the function `π`; `limit` is
`validation_start_pos` when `only_train=True` and `self.length`
otherwise. -/
def shuffle_sequence (n limit : Nat) (π : Nat → Nat) : List Nat :=
  (List.range n).map (fun i => if i < limit then π i else i)

/-- Numpy row gather `arr[sequence]` (the default is never hit for
in-range index arrays). -/
def take_rows {α : Type} [Inhabited α] (a : List α) (idx : List Nat) : List α :=
  idx.map (fun i => a.getD i default)

/-- The four parallel arrays of a `DataModel` instance: `_features`,
`_targets`, `_reco`, `_seq`. -/
structure Arrays where
  features : List (List ℚ)
  targets : List (List ℚ)
  reco : List (List ℚ)
  seq : List ℚ

/-- Model of `shuffle`: gathers all four parallel arrays through the one shared
index array `shuffle_sequence`. -/
def shuffle (n limit : Nat) (π : Nat → Nat) (A : Arrays) : Arrays :=
  ⟨take_rows A.features (shuffle_sequence n limit π),
   take_rows A.targets (shuffle_sequence n limit π),
   take_rows A.reco (shuffle_sequence n limit π),
   take_rows A.seq (shuffle_sequence n limit π)⟩

/-- A concrete drawn permutation of 2 training rows: swap them. -/
def permw2 : Nat → Nat := fun i => [1, 0].getD i 0

/-- A concrete 3-row instance (2 training rows, 1 row beyond the
training range). -/
def arraysw : Arrays :=
  ⟨[[1], [2], [3]], [[4], [5], [6]], [[7], [8], [9]], [10, 20, 30]⟩

/-- Column projection `row[idxs]` of one target row (numpy advanced
indexing, which copies the selected entries). -/
def cols (idxs : List Nat) (row : List ℚ) : List ℚ := idxs.map (fun c => row.getD c 0)

/-- Projection `_target_type`: `self._targets[:,[0]]`. -/
def _target_type (T : List (List ℚ)) : List (List ℚ) := T.map (cols [0])

/-- Projection `_target_e_cluster`: `self._targets[:,[0,9]]`. -/
def _target_e_cluster (T : List (List ℚ)) : List (List ℚ) := T.map (cols [0, 9])

/-- Projection `_target_p_cluster`: `self._targets[:,[0,10]]`. -/
def _target_p_cluster (T : List (List ℚ)) : List (List ℚ) := T.map (cols [0, 10])

/-- Projection `_target_pos_x`: `self._targets[:,[0,9,3,10,6]]`. -/
def _target_pos_x (T : List (List ℚ)) : List (List ℚ) := T.map (cols [0, 9, 3, 10, 6])

/-- Projection `_target_pos_y`: `self._targets[:,[0,9,4,10,7]]`. -/
def _target_pos_y (T : List (List ℚ)) : List (List ℚ) := T.map (cols [0, 9, 4, 10, 7])

/-- Projection `_target_pos_z`: `self._targets[:,[0,9,5,10,8]]`. -/
def _target_pos_z (T : List (List ℚ)) : List (List ℚ) := T.map (cols [0, 9, 5, 10, 8])

/-- Projection `_target_energy`: `self._targets[:,[0,1,2]]`. -/
def _target_energy (T : List (List ℚ)) : List (List ℚ) := T.map (cols [0, 1, 2])

/-- Python slice `arr[start:stop]` for `start ≤ stop`. -/
def pyslice (start stop : Nat) (T : List (List ℚ)) : List (List ℚ) :=
  (T.drop start).take (stop - start)

/-- The target dictionary of `get_targets_dic`, with its seven fixed
keys. -/
structure TargetsDic where
  type : List (List ℚ)
  e_cluster : List (List ℚ)
  p_cluster : List (List ℚ)
  pos_x : List (List ℚ)
  pos_y : List (List ℚ)
  pos_z : List (List ℚ)
  energy : List (List ℚ)

/-- Model of `get_targets_dic(start, end)`: each entry is the `[start:end]` row
slice of the matching column projection of the stored targets. -/
def get_targets_dic (T : List (List ℚ)) (start stop : Nat) : TargetsDic :=
  ⟨pyslice start stop (_target_type T),
   pyslice start stop (_target_e_cluster T),
   pyslice start stop (_target_p_cluster T),
   pyslice start stop (_target_pos_x T),
   pyslice start stop (_target_pos_y T),
   pyslice start stop (_target_pos_z T),
   pyslice start stop (_target_energy T)⟩

/-- The in-place write
`entry[:,1] = np.where(np.equal(entry[:,[1]], sequence))[1]` on a
cluster entry of the dictionary copy: column 1 of each row is replaced
by the slot position whose sequence value equals the old index. -/
def augment_cluster_entry (K : Nat) (σ : Nat → Nat) (rows : List (List ℚ)) :
    List (List ℚ) :=
  rows.map (fun r => r.set 1 (((remap_cluster_index K σ (r.getD 1 0)).getD 0 : Nat) : ℚ))

/-- The effect of the two augmentation writes on the target
dictionary: only the `e_cluster` and `p_cluster` entries change. -/
def augment_targets_dic (K : Nat) (σ : Nat → Nat) (d : TargetsDic) : TargetsDic :=
  { d with e_cluster := augment_cluster_entry K σ d.e_cluster,
           p_cluster := augment_cluster_entry K σ d.p_cluster }

/-- One emission of `generate_batch`, returning the yielded
`(features, targets dictionary, weights)` triple together with the
stored `_features` and `_targets` as they stand after the call.  Every
dictionary entry is an advanced-indexing copy of the stored rows, so
the in-place cluster-entry writes performed under `augment=True` act
on the copies and the stored arrays pass through unchanged. -/
def generate_batch_step (F T : List (List ℚ)) (v b : Nat) (wc wnc : ℚ)
    (K : Nat) (σ : Nat → Nat) (augment : Bool) (step : Nat) :
    (List (List ℚ) × TargetsDic × List ℚ) × List (List ℚ) × List (List ℚ) :=
  let start := batch_start b step
  let stop := batch_end v b step
  let fb0 := pyslice start stop F
  let fb := if augment then fb0.map (fun r => reindex r (expanded_sequence K σ)) else fb0
  let db0 := get_targets_dic T start stop
  let db := if augment then augment_targets_dic K σ db0 else db0
  ((fb, db, batch_weights wc wnc db.type), (F, T))

/-- One event of the external simulation source, at the interface the
archive builder consumes: the validity predicate and the feature and
target vector extractions. -/
structure SimEvent where
  is_distributed_clusters : Bool
  features : List ℚ
  targets : List ℚ

/-- The persisted archive: the four named arrays written by
`np.savez_compressed`. -/
structure Archive where
  features : List (List ℚ)
  targets : List (List ℚ)
  reco : List (List ℚ)
  sequence : List Nat

/-- Model of `generate_training_data`: one pass over `simulation.iterate_events()`
keeping the events whose `is_distributed_clusters` flag is set
(collecting their feature vector, target vector and original index);
the reco array is the simulation's reconstructed columns (one 8-scalar
row per event: e/p energy then e/p position) masked to the kept rows,
with the type column prepended and set to `reco_e_energy != 0`.  The
four arrays are persisted unconditionally: the source contains no
emptiness check. -/
def generate_training_data (events : List SimEvent) (recoSource : List (List ℚ)) :
    Archive :=
  { features := (events.enum.filter (fun ie => ie.2.is_distributed_clusters)).map
      (fun ie => ie.2.features)
    targets := (events.enum.filter (fun ie => ie.2.is_distributed_clusters)).map
      (fun ie => ie.2.targets)
    reco := ((recoSource.zip events).filter (fun re => re.2.is_distributed_clusters)).map
      (fun re => (if re.1.getD 0 0 ≠ 0 then (1 : ℚ) else 0) :: re.1)
    sequence := (events.enum.filter (fun ie => ie.2.is_distributed_clusters)).map
      (fun ie => ie.1) }

lemma zscore_length (data mean std : List ℚ) (hm : data.length ≤ mean.length)
    (hs : data.length ≤ std.length) : (zscore data mean std).length = data.length := by
  simp [zscore]
  omega

lemma unzscore_zscore (data mean std : List ℚ)
    (hm : data.length ≤ mean.length) (hs : data.length ≤ std.length)
    (h0 : ∀ s ∈ std, s ≠ 0) :
    unzscore (zscore data mean std) mean std = data := by
  induction data generalizing mean std with
  | nil => simp [zscore, unzscore]
  | cons x xs ih =>
    cases mean with
    | nil => simp at hm
    | cons m ms =>
      cases std with
      | nil => simp at hs
      | cons s ss =>
        have hs0 : s ≠ 0 := h0 s (by simp)
        simp only [zscore, unzscore, List.zipWith_cons_cons, List.cons.injEq]
        refine ⟨by field_simp, ?_⟩
        exact ih ms ss (by simpa using hm) (by simpa using hs)
          (fun t ht => h0 t (by simp [ht]))

lemma std_targets_ne_zero : ∀ s ∈ std_targets, s ≠ 0 := by
  intro s hs
  rw [std_targets] at hs
  fin_cases hs <;> norm_num [eng_std_factor]

lemma std_targets_take_ne_zero : ∀ s ∈ std_targets.take 9, s ≠ 0 :=
  fun s hs => std_targets_ne_zero s (List.mem_of_mem_take hs)

/-- C2: for a vector of last-axis width 11 (full target form) or 9
(reco form), denormalizing the normalization gives the vector back
exactly (in the exact-rational model, the floating-point tolerance is
not needed): both widths dispatch to matching statistics slices whose
std entries are all nonzero. -/
theorem normalize_denormalize_roundtrip (v : List ℚ)
    (h : v.length = 11 ∨ v.length = 9) :
    (normalize_targets v).bind _denormalize_targets = .ok v := by
  rcases h with h | h
  · have hn : normalize_targets v = .ok (zscore v mean_targets std_targets) := by
      simp [normalize_targets, h, target_width]
    have hlen : (zscore v mean_targets std_targets).length = 11 := by
      rw [zscore_length v _ _ (by simp [mean_targets, h]) (by simp [std_targets, h])]
      exact h
    rw [hn]
    simp only [Except.bind]
    rw [_denormalize_targets, if_pos (by rw [hlen]; rfl)]
    rw [unzscore_zscore v _ _ (by simp [mean_targets, h]) (by simp [std_targets, h])
      std_targets_ne_zero]
  · have hn : normalize_targets v =
        .ok (zscore v (mean_targets.take 9) (std_targets.take 9)) := by
      rw [normalize_targets, if_neg (by rw [h]; decide), if_pos (by rw [h]; rfl)]
    have hlen : (zscore v (mean_targets.take 9) (std_targets.take 9)).length = 9 := by
      rw [zscore_length v _ _ (by simp [mean_targets, h]) (by simp [std_targets, h])]
      exact h
    rw [hn]
    simp only [Except.bind]
    rw [_denormalize_targets, if_neg (by rw [hlen]; decide), if_pos (by rw [hlen]; rfl)]
    rw [unzscore_zscore v _ _ (by simp [mean_targets, h]) (by simp [std_targets, h])
      std_targets_take_ne_zero]

/-- Witness for `normalize_denormalize_roundtrip` at a concrete 9-wide
vector. -/
theorem normalize_denormalize_roundtrip_witness :
    (normalize_targets [1, 2, 3, 4, 5, 6, 7, 8, 9]).bind _denormalize_targets =
      .ok [1, 2, 3, 4, 5, 6, 7, 8, 9] :=
  normalize_denormalize_roundtrip [1, 2, 3, 4, 5, 6, 7, 8, 9] (Or.inr rfl)

/-- C3: if the last-axis width is neither the target width 11 nor the
reco width 9, both `normalize_targets` and `_denormalize_targets` raise
(return `.error`) with a message that spells out the offending shape,
and never return a coerced result; for widths 11 and 9 they return
normally, applying the matching statistics slice (full statistics for
11, statistics minus the last two columns for 9). -/
theorem normalize_targets_shape_check (data : List ℚ) :
    (data.length ≠ 11 → data.length ≠ 9 →
      normalize_targets data = .error (invalid_shape_msg data.length) ∧
      _denormalize_targets data = .error (invalid_shape_msg data.length) ∧
      invalid_shape_msg data.length =
        "data has invalid shape of " ++ ("(" ++ toString data.length ++ ",)")) ∧
    (data.length = 11 →
      normalize_targets data = .ok (zscore data mean_targets std_targets) ∧
      _denormalize_targets data = .ok (unzscore data mean_targets std_targets)) ∧
    (data.length = 9 →
      normalize_targets data =
        .ok (zscore data (mean_targets.take 9) (std_targets.take 9)) ∧
      _denormalize_targets data =
        .ok (unzscore data (mean_targets.take 9) (std_targets.take 9))) := by
  refine ⟨fun h11 h9 => ?_, fun h11 => ?_, fun h9 => ?_⟩
  · rw [normalize_targets, _denormalize_targets, if_neg (by simpa [target_width] using h11),
      if_neg (by simpa [reco_width] using h9), if_neg (by simpa [target_width] using h11),
      if_neg (by simpa [reco_width] using h9)]
    refine ⟨rfl, rfl, ?_⟩
    have hlit : "data has invalid shape of (" = "data has invalid shape of " ++ "(" := by
      decide
    simp only [invalid_shape_msg, hlit, String.append_assoc]
  · rw [normalize_targets, _denormalize_targets, if_pos (by rw [h11]; rfl),
      if_pos (by rw [h11]; rfl)]
    exact ⟨rfl, rfl⟩
  · rw [normalize_targets, _denormalize_targets, if_neg (by rw [h9]; decide),
      if_pos (by rw [h9]; rfl), if_neg (by rw [h9]; decide), if_pos (by rw [h9]; rfl)]
    exact ⟨rfl, rfl⟩

/-- Witness for `normalize_targets_shape_check`: a 3-wide vector is
rejected with the shape in the message, an 11-wide vector is accepted. -/
theorem normalize_targets_shape_check_witness :
    normalize_targets [1, 2, 3] = .error (invalid_shape_msg 3) ∧
    normalize_targets [0, 1, 2, 3, 4, 5, 6, 7, 8, 9, 10] =
      .ok (zscore [0, 1, 2, 3, 4, 5, 6, 7, 8, 9, 10] mean_targets std_targets) :=
  ⟨((normalize_targets_shape_check [1, 2, 3]).1 (by decide) (by decide)).1,
   ((normalize_targets_shape_check [0, 1, 2, 3, 4, 5, 6, 7, 8, 9, 10]).2.1 rfl).1⟩

lemma zscore_getElem?_id (v m s : List ℚ) (i : Nat)
    (hm : m[i]? = some 0) (hs : s[i]? = some 1) :
    (zscore v m s)[i]? = v[i]? := by
  rw [zscore, List.getElem?_zipWith', List.getElem?_zipWith', hm, hs]
  cases v[i]? <;> simp

lemma unzscore_getElem?_id (v m s : List ℚ) (i : Nat)
    (hm : m[i]? = some 0) (hs : s[i]? = some 1) :
    (unzscore v m s)[i]? = v[i]? := by
  rw [unzscore, List.getElem?_zipWith', List.getElem?_zipWith', hm, hs]
  cases v[i]? <;> simp

/-- C7: the target mean vector is 0 and the target std vector is 1 at
positions 0 (compton flag), 9 and 10 (the two cluster-index columns),
so for an 11-wide target vector both normalization and denormalization
leave those three columns exactly unchanged. -/
theorem cluster_columns_identity (v w u : List ℚ) (h : v.length = 11)
    (hw : normalize_targets v = .ok w) (hu : _denormalize_targets v = .ok u) :
    (mean_targets.getD 0 0 = 0 ∧ mean_targets.getD 9 0 = 0 ∧
      mean_targets.getD 10 0 = 0) ∧
    (std_targets.getD 0 0 = 1 ∧ std_targets.getD 9 0 = 1 ∧
      std_targets.getD 10 0 = 1) ∧
    (w[0]? = v[0]? ∧ w[9]? = v[9]? ∧ w[10]? = v[10]?) ∧
    (u[0]? = v[0]? ∧ u[9]? = v[9]? ∧ u[10]? = v[10]?) := by
  rw [normalize_targets, if_pos (by rw [h]; rfl)] at hw
  rw [_denormalize_targets, if_pos (by rw [h]; rfl)] at hu
  simp only [Except.ok.injEq] at hw hu
  subst hw hu
  refine ⟨⟨rfl, rfl, rfl⟩, ⟨rfl, rfl, rfl⟩, ⟨?_, ?_, ?_⟩, ⟨?_, ?_, ?_⟩⟩
  · exact zscore_getElem?_id v _ _ 0 rfl rfl
  · exact zscore_getElem?_id v _ _ 9 rfl rfl
  · exact zscore_getElem?_id v _ _ 10 rfl rfl
  · exact unzscore_getElem?_id v _ _ 0 rfl rfl
  · exact unzscore_getElem?_id v _ _ 9 rfl rfl
  · exact unzscore_getElem?_id v _ _ 10 rfl rfl

/-- Witness for `cluster_columns_identity` at a concrete 11-wide
vector. -/
theorem cluster_columns_identity_witness :
    ∃ w u : List ℚ,
      normalize_targets [1, 2, 3, 4, 5, 6, 7, 8, 9, 4, 7] = .ok w ∧
      _denormalize_targets [1, 2, 3, 4, 5, 6, 7, 8, 9, 4, 7] = .ok u ∧
      (w[0]? = some 1 ∧ w[9]? = some 4 ∧ w[10]? = some 7) ∧
      (u[0]? = some 1 ∧ u[9]? = some 4 ∧ u[10]? = some 7) := by
  refine ⟨zscore [1, 2, 3, 4, 5, 6, 7, 8, 9, 4, 7] mean_targets std_targets,
    unzscore [1, 2, 3, 4, 5, 6, 7, 8, 9, 4, 7] mean_targets std_targets, rfl, rfl, ?_⟩
  have h := cluster_columns_identity [1, 2, 3, 4, 5, 6, 7, 8, 9, 4, 7] _ _ rfl rfl rfl
  exact ⟨h.2.2.1, h.2.2.2⟩

/-- C5: the split boundaries are the floors of `length * (1-vp-tp)` and
`length * (1-tp)`, they satisfy `0 ≤ validation_start_pos ≤
test_start_pos ≤ length`, and the train/validation/test index ranges
are contiguous, non-overlapping, and together cover every row: their
concatenation, in order, is exactly `List.range length`. -/
theorem split_boundaries (L : Nat) (vp tp : ℚ)
    (hvp : 0 ≤ vp) (htp : 0 ≤ tp) (hsum : vp + tp < 1) :
    ((validation_start_pos L vp tp : ℤ) = ⌊(L : ℚ) * (1 - vp - tp)⌋ ∧
     (test_start_pos L tp : ℤ) = ⌊(L : ℚ) * (1 - tp)⌋) ∧
    (validation_start_pos L vp tp ≤ test_start_pos L tp ∧ test_start_pos L tp ≤ L) ∧
    validation_start_pos L vp tp + (test_start_pos L tp - validation_start_pos L vp tp) +
      (L - test_start_pos L tp) = L ∧
    List.range' 0 (validation_start_pos L vp tp) ++
      List.range' (validation_start_pos L vp tp)
        (test_start_pos L tp - validation_start_pos L vp tp) ++
      List.range' (test_start_pos L tp) (L - test_start_pos L tp) =
      List.range L := by
  have hL : (0 : ℚ) ≤ (L : ℚ) := Nat.cast_nonneg L
  have hv0 : (0 : ℚ) ≤ (L : ℚ) * (1 - vp - tp) := by
    apply mul_nonneg hL; linarith
  have ht0 : (0 : ℚ) ≤ (L : ℚ) * (1 - tp) := by
    apply mul_nonneg hL; linarith
  have hveq : (validation_start_pos L vp tp : ℤ) = ⌊(L : ℚ) * (1 - vp - tp)⌋ :=
    Int.toNat_of_nonneg (Int.floor_nonneg.mpr hv0)
  have hteq : (test_start_pos L tp : ℤ) = ⌊(L : ℚ) * (1 - tp)⌋ :=
    Int.toNat_of_nonneg (Int.floor_nonneg.mpr ht0)
  have hvt : validation_start_pos L vp tp ≤ test_start_pos L tp := by
    apply Int.toNat_le_toNat
    apply Int.floor_le_floor
    apply mul_le_mul_of_nonneg_left _ hL
    linarith
  have htL : test_start_pos L tp ≤ L := by
    have h1 : ⌊(L : ℚ) * (1 - tp)⌋ ≤ ⌊(L : ℚ)⌋ := by
      apply Int.floor_le_floor
      nlinarith
    have h2 : (⌊(L : ℚ)⌋).toNat = L := by
      rw [Int.floor_natCast]; exact Int.toNat_natCast L
    calc test_start_pos L tp ≤ (⌊(L : ℚ)⌋).toNat := Int.toNat_le_toNat h1
      _ = L := h2
  refine ⟨⟨hveq, hteq⟩, ⟨hvt, htL⟩, by omega, ?_⟩
  set v := validation_start_pos L vp tp
  set t := test_start_pos L tp
  have h1 := List.range'_append 0 v (t - v) 1
  have h2 := List.range'_append 0 t (L - t) 1
  simp only [Nat.zero_add, Nat.one_mul] at h1 h2
  rw [show t - v + v = t from by omega] at h1
  rw [show L - t + t = L from by omega] at h2
  rw [List.range_eq_range', h1, h2]

/-- Witness for `split_boundaries`: length 100 with 5% validation and
10% test gives boundaries 85 and 90, in range and summing back to 100. -/
theorem split_boundaries_witness :
    (validation_start_pos 100 (1/20) (1/10) ≤ test_start_pos 100 (1/10) ∧
      test_start_pos 100 (1/10) ≤ 100) ∧
    validation_start_pos 100 (1/20) (1/10) = 85 ∧ test_start_pos 100 (1/10) = 90 :=
  ⟨(split_boundaries 100 (1/20) (1/10) (by norm_num) (by norm_num) (by norm_num)).2.1,
   by rw [validation_start_pos]; push_cast; norm_num; decide,
   by rw [test_start_pos]; push_cast; norm_num; decide⟩

lemma steps_per_epoch_eq (v b : Nat) (hb : 0 < b) :
    steps_per_epoch v b = (v + b - 1) / b := by
  have key := Nat.div_add_mod (v + b - 1) b
  have hr : (v + b - 1) % b < b := Nat.mod_lt _ hb
  set q := (v + b - 1) / b with hqdef
  have f1 : v ≤ b * q := by omega
  have f2 : b * q < v + b := by omega
  have hbq : (0 : ℚ) < (b : ℚ) := by exact_mod_cast hb
  have hq1 : (v : ℚ) ≤ (b : ℚ) * (q : ℚ) := by exact_mod_cast f1
  have hq2 : (b : ℚ) * (q : ℚ) < (v : ℚ) + b := by exact_mod_cast f2
  have hceil : ⌈(v : ℚ) / (b : ℚ)⌉ = (q : ℤ) := by
    rw [Int.ceil_eq_iff]
    constructor
    · push_cast
      rw [lt_div_iff₀ hbq]
      nlinarith
    · push_cast
      rw [div_le_iff₀ hbq]
      nlinarith
  rw [steps_per_epoch, hceil, Int.toNat_natCast]

/-- C4: with a positive batch size, one epoch of `generate_batch` emits
`steps_per_epoch v b` windows where `b * steps_per_epoch v b` is the
least multiple of `b` reaching `v` (i.e. `steps_per_epoch == ceil(v/b)`);
every window ends at or before `v` (never entering the validation
range), every non-final window is the full `[step*b, (step+1)*b)` and
ends exactly where the next starts, the final window is clamped to end
at `v`, every window is nonempty, every training row index `i < v` is
covered by some window, and windows at distinct steps are disjoint. -/
theorem generate_batch_windowing (v b : Nat) (hb : 0 < b) :
    (v ≤ b * steps_per_epoch v b ∧ b * steps_per_epoch v b < v + b) ∧
    (∀ step, batch_end v b step ≤ v) ∧
    (∀ step, step + 1 < steps_per_epoch v b →
      batch_end v b step = (step + 1) * b ∧
      batch_end v b step = batch_start b (step + 1)) ∧
    (0 < steps_per_epoch v b → batch_end v b (steps_per_epoch v b - 1) = v) ∧
    (∀ step, step < steps_per_epoch v b → batch_start b step < batch_end v b step) ∧
    (∀ i, i < v → ∃ step, step < steps_per_epoch v b ∧
      batch_start b step ≤ i ∧ i < batch_end v b step) ∧
    (∀ s1 s2, s1 < s2 → batch_end v b s1 ≤ batch_start b s2) := by
  have hn := steps_per_epoch_eq v b hb
  set n := steps_per_epoch v b with hndef
  have key := Nat.div_add_mod (v + b - 1) b
  have hr : (v + b - 1) % b < b := Nat.mod_lt _ hb
  have f1 : v ≤ b * n := by rw [hn]; omega
  have f2 : b * n < v + b := by rw [hn]; omega
  refine ⟨⟨f1, f2⟩, fun step => min_le_right _ _, fun step hstep => ?_, fun hpos => ?_,
    fun step hstep => ?_, fun i hi => ?_, fun s1 s2 h12 => ?_⟩
  · have h1 : (step + 2) * b ≤ n * b := Nat.mul_le_mul_right b hstep
    have h2 : n * b ≤ v + b - 1 := by rw [Nat.mul_comm]; omega
    have h3 : (step + 1) * b < v := by
      have : (step + 2) * b = (step + 1) * b + b := by ring
      omega
    have h4 : batch_end v b step = (step + 1) * b := min_eq_left (Nat.le_of_lt h3)
    exact ⟨h4, by rw [h4, batch_start]⟩
  · rw [batch_end, show (n - 1 + 1) = n from by omega]
    exact min_eq_right (by rw [Nat.mul_comm] at f1; exact f1)
  · have h1 : (step + 1) * b ≤ n * b := Nat.mul_le_mul_right b hstep
    have h2 : n * b ≤ v + b - 1 := by rw [Nat.mul_comm]; omega
    have h3 : step * b < v := by
      have : (step + 1) * b = step * b + b := by ring
      omega
    have h4 : step * b < (step + 1) * b := by
      have : (step + 1) * b = step * b + b := by ring
      omega
    exact lt_min h4 h3
  · refine ⟨i / b, ?_, Nat.div_mul_le_self i b, ?_⟩
    · rw [Nat.div_lt_iff_lt_mul hb, Nat.mul_comm]
      omega
    · have key2 := Nat.div_add_mod i b
      have hr2 : i % b < b := Nat.mod_lt _ hb
      apply lt_min
      · have : (i / b + 1) * b = b * (i / b) + b := by ring
        omega
      · exact hi
  · calc batch_end v b s1 ≤ (s1 + 1) * b := min_le_left _ _
      _ ≤ s2 * b := Nat.mul_le_mul_right b h12
      _ = batch_start b s2 := rfl

/-- Witness for `generate_batch_windowing`: with `validation_start_pos
= 100` and `batch_size = 64` there are 2 steps and the windows are
`[0, 64)` then `[64, 100)`. -/
theorem generate_batch_windowing_witness :
    batch_end 100 64 (steps_per_epoch 100 64 - 1) = 100 ∧ steps_per_epoch 100 64 = 2 ∧
    epoch_windows 100 64 = [(0, 64), (64, 100)] :=
  ⟨(generate_batch_windowing 100 64 (by decide)).2.2.2.1
    (by rw [steps_per_epoch_eq 100 64 (by decide)]; decide),
   by rw [steps_per_epoch_eq 100 64 (by decide)],
   by rw [epoch_windows, steps_per_epoch_eq 100 64 (by decide)]; decide⟩

/-- C6: the weight vector yielded with a batch equals
`type * weight_compton + (1 - type) * weight_non_compton` elementwise
over the batch's `type` column; a row with type 1 gets exactly
`weight_compton`, a row with type 0 gets exactly `weight_non_compton`,
and the synthetic batch `[1,0,1,0]` with weights `(1, 3/4)` yields
`[1, 3/4, 1, 3/4]`. -/
theorem generate_batch_weights (wc wnc : ℚ) (rows : List (List ℚ)) :
    (∀ i : Nat, (batch_weights wc wnc rows)[i]? =
      (rows[i]?).map (fun r : List ℚ => r.getD 0 0 * wc + (1 - r.getD 0 0) * wnc)) ∧
    (∀ (i : Nat) (r : List ℚ), rows[i]? = some r → r.getD 0 0 = 1 →
      (batch_weights wc wnc rows)[i]? = some wc) ∧
    (∀ (i : Nat) (r : List ℚ), rows[i]? = some r → r.getD 0 0 = 0 →
      (batch_weights wc wnc rows)[i]? = some wnc) ∧
    batch_weights 1 (3/4) [[1], [0], [1], [0]] = [1, 3/4, 1, 3/4] := by
  refine ⟨fun i => ?_, fun i r hr ht => ?_, fun i r hr ht => ?_, ?_⟩
  · rw [batch_weights, List.getElem?_map]
    cases rows[i]? <;> simp [sample_weight]
  · rw [batch_weights, List.getElem?_map, hr]
    simp only [Option.map_some', sample_weight, ht]
    norm_num
  · rw [batch_weights, List.getElem?_map, hr]
    simp only [Option.map_some', sample_weight, ht]
    norm_num
  · norm_num [batch_weights, sample_weight]

/-- Witness for `generate_batch_weights`: in the mixed synthetic batch,
row 0 has type 1 and weight `weight_compton = 1`, row 1 has type 0 and
weight `weight_non_compton = 3/4`. -/
theorem generate_batch_weights_witness :
    (batch_weights 1 (3/4) [[1], [0], [1], [0]])[0]? = some 1 ∧
    (batch_weights 1 (3/4) [[1], [0], [1], [0]])[1]? = some (3/4) :=
  ⟨(generate_batch_weights 1 (3/4) [[1], [0], [1], [0]]).2.1 0 [1] rfl (by norm_num),
   (generate_batch_weights 1 (3/4) [[1], [0], [1], [0]]).2.2.1 1 [0] rfl (by norm_num)⟩

/-- C1: for a permutation of the `clusters_limit` slots and any event
feature row, the augmented row's 9-scalar block at new position `p`
equals the pre-augmentation block at position `σ(p)` (through the
expanded map `expanded[i*9+j] = σ(i)*9+j`), and each cluster-index
target field `old < K` is rewritten, by search against the drawn
sequence, to the unique `newIdx` with `σ(newIdx) = old`. -/
theorem augmentation_consistency (K : Nat) (σ : Nat → Nat) (hσ : PermOn K σ)
    (v : List ℚ) (hv : v.length = K * cluster_size) :
    (∀ p j, p < K → j < cluster_size →
      (reindex v (expanded_sequence K σ))[p * cluster_size + j]? =
        v[σ p * cluster_size + j]?) ∧
    (∀ old : Nat, old < K → ∃ newIdx,
      remap_cluster_index K σ (old : ℚ) = some newIdx ∧
      newIdx < K ∧ σ newIdx = old ∧ ∀ q, q < K → σ q = old → q = newIdx) := by
  obtain ⟨hbound, hsurj, hinj⟩ := hσ
  constructor
  · intro p j hp hj
    rw [cluster_size] at hj
    have ht : p * 9 + j < K * 9 := by nlinarith
    have hdiv : (p * 9 + j) / 9 = p := by omega
    have hmod : (p * 9 + j) % 9 = j := by omega
    have hidx : σ p * 9 + j < v.length := by
      rw [hv, cluster_size]
      have := hbound p hp
      nlinarith
    rw [reindex, List.getElem?_map, expanded_sequence, List.getElem?_map, cluster_size,
      List.getElem?_range ht]
    simp only [Option.map_some', hdiv, hmod]
    rw [List.getD_eq_getElem v 0 hidx, List.getElem?_eq_getElem hidx]
  · intro old hold
    obtain ⟨p0, hp0, hsp0⟩ := hsurj old hold
    rcases hfind : remap_cluster_index K σ ((old : Nat) : ℚ) with _ | newIdx
    · exfalso
      rw [remap_cluster_index, List.find?_eq_none] at hfind
      have h := hfind p0 (List.mem_range.mpr hp0)
      simp only [decide_eq_true_eq] at h
      exact h (by exact_mod_cast hsp0)
    · have hmem : newIdx ∈ List.range K := List.mem_of_find?_eq_some hfind
      have hlt : newIdx < K := List.mem_range.mp hmem
      have heq : (σ newIdx : ℚ) = ((old : Nat) : ℚ) := by
        have := List.find?_some hfind
        simpa using this
      have heqn : σ newIdx = old := by exact_mod_cast heq
      exact ⟨newIdx, rfl, hlt, heqn, fun q hq hsq => hinj q newIdx hq hlt (by rw [hsq, heqn])⟩

lemma seqw_perm : PermOn 3 seqw := by
  refine ⟨by decide, by decide, ?_⟩
  intro i j hi hj h
  interval_cases i <;> interval_cases j <;> first | rfl | (exfalso; revert h; decide)

lemma vrow27_length : vrow27.length = 3 * cluster_size := by
  simp [vrow27, cluster_size]

/-- Witness for `augmentation_consistency`: three clusters permuted by
`sequence = [2,0,1]` over the feature row `[0,1,...,26]`; the block at
new position 1 is the old block at slot `seqw 1 = 0`, and the cluster
index 2 is rewritten to slot 0 (since `sequence[0] = 2`). -/
theorem augmentation_consistency_witness :
    ((reindex vrow27 (expanded_sequence 3 seqw))[1 * cluster_size + 4]? =
      vrow27[seqw 1 * cluster_size + 4]?) ∧
    (∃ newIdx, remap_cluster_index 3 seqw ((2 : Nat) : ℚ) = some newIdx ∧
      newIdx < 3 ∧ seqw newIdx = 2 ∧ ∀ q, q < 3 → seqw q = 2 → q = newIdx) :=
  ⟨(augmentation_consistency 3 seqw seqw_perm vrow27 vrow27_length).1 1 4
      (by decide) (by decide),
   (augmentation_consistency 3 seqw seqw_perm vrow27 vrow27_length).2 2 (by decide)⟩

lemma take_rows_shuffle_frame {α : Type} [Inhabited α] (a : List α) (n limit i : Nat)
    (π : Nat → Nat) (ha : a.length = n) (hi : limit ≤ i) :
    (take_rows a (shuffle_sequence n limit π))[i]? = a[i]? := by
  rw [take_rows, shuffle_sequence, List.map_map, List.getElem?_map]
  by_cases hin : i < n
  · rw [List.getElem?_range hin]
    simp only [Option.map_some', Function.comp_apply]
    rw [if_neg (by omega)]
    rw [List.getD_eq_getElem a default (by omega),
      List.getElem?_eq_getElem (show i < a.length by omega)]
  · rw [List.getElem?_eq_none (by rw [List.length_range]; omega),
      List.getElem?_eq_none (show a.length ≤ i by omega)]
    rfl

lemma take_rows_shuffle_perm {α : Type} [Inhabited α] (a : List α) (n limit : Nat)
    (π : Nat → Nat) (hπ : PermOn limit π) (hlim : limit ≤ n) (ha : a.length = n) :
    ((take_rows a (shuffle_sequence n limit π)).take limit).Perm (a.take limit) := by
  obtain ⟨hbound, hsurj, hinj⟩ := hπ
  have h1 : (take_rows a (shuffle_sequence n limit π)).take limit =
      List.map (fun i => a.getD i default) (List.map π (List.range limit)) := by
    rw [take_rows, shuffle_sequence, List.map_map, ← List.map_take, List.take_range,
      min_eq_left hlim, List.map_map]
    apply List.map_congr_left
    intro i hi
    have hilim : i < limit := List.mem_range.mp hi
    simp [Function.comp, if_pos hilim]
  have nd1 : (List.map π (List.range limit)).Nodup := by
    apply List.Nodup.map_on _ (List.nodup_range limit)
    intro x hx y hy hxy
    exact hinj x y (List.mem_range.mp hx) (List.mem_range.mp hy) hxy
  have h2 : (List.map π (List.range limit)).Perm (List.range limit) := by
    rw [List.perm_ext_iff_of_nodup nd1 (List.nodup_range limit)]
    intro y
    constructor
    · intro hy
      obtain ⟨x, hx, rfl⟩ := List.mem_map.mp hy
      exact List.mem_range.mpr (hbound x (List.mem_range.mp hx))
    · intro hy
      obtain ⟨p, hp, hpy⟩ := hsurj y (List.mem_range.mp hy)
      exact List.mem_map.mpr ⟨p, List.mem_range.mpr hp, hpy⟩
  have h3 : a.take limit = List.map (fun i => a.getD i default) (List.range limit) := by
    apply List.ext_getElem?
    intro i
    rw [List.getElem?_take, List.getElem?_map]
    by_cases hi : i < limit
    · rw [if_pos hi, List.getElem?_range hi]
      simp only [Option.map_some']
      rw [List.getD_eq_getElem a default (by omega),
        List.getElem?_eq_getElem (show i < a.length by omega)]
    · rw [if_neg hi, List.getElem?_eq_none (by rw [List.length_range]; omega)]
      rfl
  rw [h1, h3]
  exact h2.map (fun i => a.getD i default)

/-- C9: `shuffle` gathers the four parallel arrays through one shared
index array; with `only_train=True` (`limit = validation_start_pos`)
every row at index `>= limit` is unchanged in all four arrays, and the
first `limit` rows of each array are permuted by the same drawn
permutation, so each array's permuted range keeps its multiset of rows
(in particular the multiset of `sequence` values is preserved). -/
theorem shuffle_spec (n limit : Nat) (π : Nat → Nat) (A : Arrays)
    (hπ : PermOn limit π) (hlim : limit ≤ n)
    (hf : A.features.length = n) (ht : A.targets.length = n)
    (hr : A.reco.length = n) (hs : A.seq.length = n) :
    ((shuffle n limit π A).features = take_rows A.features (shuffle_sequence n limit π) ∧
     (shuffle n limit π A).targets = take_rows A.targets (shuffle_sequence n limit π) ∧
     (shuffle n limit π A).reco = take_rows A.reco (shuffle_sequence n limit π) ∧
     (shuffle n limit π A).seq = take_rows A.seq (shuffle_sequence n limit π)) ∧
    (∀ i, limit ≤ i →
      (shuffle n limit π A).features[i]? = A.features[i]? ∧
      (shuffle n limit π A).targets[i]? = A.targets[i]? ∧
      (shuffle n limit π A).reco[i]? = A.reco[i]? ∧
      (shuffle n limit π A).seq[i]? = A.seq[i]?) ∧
    (((shuffle n limit π A).features.take limit).Perm (A.features.take limit) ∧
     ((shuffle n limit π A).targets.take limit).Perm (A.targets.take limit) ∧
     ((shuffle n limit π A).reco.take limit).Perm (A.reco.take limit) ∧
     ((shuffle n limit π A).seq.take limit).Perm (A.seq.take limit)) := by
  refine ⟨⟨rfl, rfl, rfl, rfl⟩, fun i hi => ⟨?_, ?_, ?_, ?_⟩, ?_, ?_, ?_, ?_⟩
  · exact take_rows_shuffle_frame A.features n limit i π hf hi
  · exact take_rows_shuffle_frame A.targets n limit i π ht hi
  · exact take_rows_shuffle_frame A.reco n limit i π hr hi
  · exact take_rows_shuffle_frame A.seq n limit i π hs hi
  · exact take_rows_shuffle_perm A.features n limit π hπ hlim hf
  · exact take_rows_shuffle_perm A.targets n limit π hπ hlim ht
  · exact take_rows_shuffle_perm A.reco n limit π hπ hlim hr
  · exact take_rows_shuffle_perm A.seq n limit π hπ hlim hs

lemma permw2_perm : PermOn 2 permw2 := by
  refine ⟨by decide, by decide, ?_⟩
  intro i j hi hj h
  interval_cases i <;> interval_cases j <;> first | rfl | (exfalso; revert h; decide)

/-- Witness for `shuffle_spec`: swapping the two training rows of the
3-row instance leaves row 2 of the `sequence` array unchanged and
permutes the first two `sequence` values. -/
theorem shuffle_spec_witness :
    (shuffle 3 2 permw2 arraysw).seq[2]? = arraysw.seq[2]? ∧
    ((shuffle 3 2 permw2 arraysw).seq.take 2).Perm (arraysw.seq.take 2) :=
  ⟨((shuffle_spec 3 2 permw2 arraysw permw2_perm (by decide) rfl rfl rfl rfl).2.1 2
      (by decide)).2.2.2,
   (shuffle_spec 3 2 permw2 arraysw permw2_perm (by decide) rfl rfl rfl rfl).2.2.2.2.2⟩

lemma pyslice_map (f : List ℚ → List ℚ) (s e : Nat) (T : List (List ℚ)) :
    pyslice s e (T.map f) = (pyslice s e T).map f := by
  rw [pyslice, pyslice, ← List.map_drop, ← List.map_take]

/-- C10: with `augment=True`, `generate_batch` leaves the stored
`_features` and `_targets` arrays unmodified (every dictionary entry is
an advanced-indexing copy) and rewrites only the `e_cluster` and
`p_cluster` entries of the yielded dictionary; in particular the
cluster-index columns embedded in the `pos_x` entry (positions 1 and 3
of its 5-column view, and likewise for `pos_y`, `pos_z`) still hold
the pre-augmentation slot indices `row[9]` and `row[10]`. -/
theorem generate_batch_augment_frame (F T : List (List ℚ)) (v b : Nat) (wc wnc : ℚ)
    (K : Nat) (σ : Nat → Nat) (step : Nat) :
    ((generate_batch_step F T v b wc wnc K σ true step).2 = (F, T)) ∧
    ((generate_batch_step F T v b wc wnc K σ true step).1.2.1.type =
       (get_targets_dic T (batch_start b step) (batch_end v b step)).type ∧
     (generate_batch_step F T v b wc wnc K σ true step).1.2.1.pos_x =
       (get_targets_dic T (batch_start b step) (batch_end v b step)).pos_x ∧
     (generate_batch_step F T v b wc wnc K σ true step).1.2.1.pos_y =
       (get_targets_dic T (batch_start b step) (batch_end v b step)).pos_y ∧
     (generate_batch_step F T v b wc wnc K σ true step).1.2.1.pos_z =
       (get_targets_dic T (batch_start b step) (batch_end v b step)).pos_z ∧
     (generate_batch_step F T v b wc wnc K σ true step).1.2.1.energy =
       (get_targets_dic T (batch_start b step) (batch_end v b step)).energy ∧
     (generate_batch_step F T v b wc wnc K σ true step).1.2.1.e_cluster =
       augment_cluster_entry K σ
         (get_targets_dic T (batch_start b step) (batch_end v b step)).e_cluster ∧
     (generate_batch_step F T v b wc wnc K σ true step).1.2.1.p_cluster =
       augment_cluster_entry K σ
         (get_targets_dic T (batch_start b step) (batch_end v b step)).p_cluster) ∧
    (∀ (i : Nat) (row : List ℚ),
      (pyslice (batch_start b step) (batch_end v b step) T)[i]? = some row →
      ((get_targets_dic T (batch_start b step) (batch_end v b step)).pos_x)[i]? =
        some (cols [0, 9, 3, 10, 6] row) ∧
      (cols [0, 9, 3, 10, 6] row)[1]? = some (row.getD 9 0) ∧
      (cols [0, 9, 3, 10, 6] row)[3]? = some (row.getD 10 0)) := by
  refine ⟨rfl, ⟨rfl, rfl, rfl, rfl, rfl, rfl, rfl⟩, fun i row hrow => ⟨?_, rfl, rfl⟩⟩
  show (pyslice (batch_start b step) (batch_end v b step)
    (_target_pos_x T))[i]? = some (cols [0, 9, 3, 10, 6] row)
  rw [_target_pos_x, pyslice_map, List.getElem?_map, hrow]
  rfl

/-- Witness for `generate_batch_augment_frame` on a concrete one-row
stored targets array with cluster indices 1 and 2. -/
theorem generate_batch_augment_frame_witness :
    ((generate_batch_step [[5]] [[0, 1, 2, 3, 4, 5, 6, 7, 8, 1, 2]] 1 1 1 (3/4)
        3 seqw true 0).2 = ([[5]], [[0, 1, 2, 3, 4, 5, 6, 7, 8, 1, 2]])) ∧
    ((get_targets_dic [[0, 1, 2, 3, 4, 5, 6, 7, 8, 1, 2]] (batch_start 1 0)
        (batch_end 1 1 0)).pos_x)[0]? =
      some (cols [0, 9, 3, 10, 6] [0, 1, 2, 3, 4, 5, 6, 7, 8, 1, 2]) :=
  ⟨(generate_batch_augment_frame [[5]] [[0, 1, 2, 3, 4, 5, 6, 7, 8, 1, 2]] 1 1 1 (3/4)
      3 seqw 0).1,
   ((generate_batch_augment_frame [[5]] [[0, 1, 2, 3, 4, 5, 6, 7, 8, 1, 2]] 1 1 1 (3/4)
      3 seqw 0).2.2 0 [0, 1, 2, 3, 4, 5, 6, 7, 8, 1, 2] rfl).1⟩

lemma generate_training_data_no_valid (events : List SimEvent)
    (recoSource : List (List ℚ))
    (h : ∀ e ∈ events, e.is_distributed_clusters = false) :
    generate_training_data events recoSource = ⟨[], [], [], []⟩ := by
  have hkept : events.enum.filter (fun ie => ie.2.is_distributed_clusters) = [] := by
    rw [List.filter_eq_nil_iff]
    rintro ⟨i, e⟩ ha
    obtain ⟨hi, he⟩ := List.mem_enum ha
    have hmem : e ∈ events := he ▸ List.getElem_mem hi
    simp [h e hmem]
  have hreco : (recoSource.zip events).filter
      (fun re => re.2.is_distributed_clusters) = [] := by
    rw [List.filter_eq_nil_iff]
    rintro ⟨r, e⟩ ha
    have hmem : e ∈ events := (List.of_mem_zip ha).2
    simp [h e hmem]
  rw [generate_training_data, hkept, hreco]
  rfl

/-- C8: contrary to the stated behaviour, `generate_training_data`
does not fail when the iterated source yields zero valid events: it
returns normally and persists an archive with zero rows, both when
every event fails `is_distributed_clusters` and when the source
exposes no events at all. -/
theorem generate_training_data_empty_archive :
    generate_training_data
      [⟨false, [1, 2], [3, 4]⟩, ⟨false, [5, 6], [7, 8]⟩]
      [[1, 0, 0, 0, 0, 0, 0, 0], [2, 0, 0, 0, 0, 0, 0, 0]] = ⟨[], [], [], []⟩ ∧
    generate_training_data [] [] = ⟨[], [], [], []⟩ :=
  ⟨generate_training_data_no_valid _ _ (by intro e he; fin_cases he <;> rfl),
   generate_training_data_no_valid [] [] (by intro e he; cases he)⟩

end DataModel
